import Mathlib

/-!
Verification of the static content resolver (`static-resolver.service.ts`).

The resolver turns a navigational request (route parameters plus a language
code) into static content: it assembles a document path from the `path*` route
parameters, resets a single-slot per-language cache on language change, loads
the primary markdown document, extracts `key: value` metadata from HTML-style
comments, conditionally loads a companion `toc` document, and degrades to
`{ body: "" }` plus a not-found navigation on any load failure.

The embedding below models:
* the two JavaScript regexes (`/<!--([\s\S]*?)-->/g` and
  `/\s*(\w+):\s*([\w-_.]*)\s*/g`) as explicit executable matchers over
  `List Char` with the exact `RegExp.exec` cursor semantics;
* the `parse` loop with its zero-width-match guard (`rx.lastIndex++`);
* JavaScript objects (the metadata map and the result of the object spreads)
  as association lists with insert-or-overwrite (`objSet`) semantics;
* `resolve` as a pure function from the collaborators' responses
  (`FileLoader.load` as a function into `Except`), the resolved language and
  the route snapshot, returning the result object, the updated cache slot and
  the ordered log of observable side effects (cache reset, file loads,
  fallback navigation).
-/

set_option autoImplicit false

namespace StaticResolverModel

/-- ECMAScript `\s` (whitespace class), by code point. -/
def jsSpace (c : Char) : Bool :=
  c.toNat == 0x20 || c.toNat == 0x9 || c.toNat == 0xa || c.toNat == 0xb ||
  c.toNat == 0xc || c.toNat == 0xd || c.toNat == 0xa0 || c.toNat == 0x1680 ||
  (decide (0x2000 ≤ c.toNat) && decide (c.toNat ≤ 0x200a)) ||
  c.toNat == 0x2028 || c.toNat == 0x2029 || c.toNat == 0x202f ||
  c.toNat == 0x205f || c.toNat == 0x3000 || c.toNat == 0xfeff

/-- ECMAScript `\w`: ASCII letters, digits and underscore. -/
def isWordChar (c : Char) : Bool :=
  c.isAlpha || c.isDigit || c == '_'

/-- The value character class `[\w-_.]` of the pairs regex. -/
def isValueChar (c : Char) : Bool :=
  isWordChar c || c == '-' || c == '.'

/-- Does `pat` occur as a prefix of `s`? -/
def matchesAt : List Char → List Char → Bool
  | [], _ => true
  | _ :: _, [] => false
  | p :: ps, c :: cs => p == c && matchesAt ps cs

/-- Index of the first occurrence of `pat` in `s`, if any. -/
def findPat (pat : List Char) : List Char → Option Nat
  | [] => if matchesAt pat [] then some 0 else none
  | c :: t => if matchesAt pat (c :: t) then some 0 else (findPat pat t).map (· + 1)

/-- Index of the first occurrence of `pat` in `s` at position `i` or later. -/
def findFrom (pat s : List Char) (i : Nat) : Option Nat :=
  (findPat pat (s.drop i)).map (· + i)

/-- The characters of `s` from position `a` (inclusive) to `b` (exclusive). -/
def slice (s : List Char) (a b : Nat) : List Char :=
  (s.drop a).take (b - a)

/-- The character of `s` at position `i`, if in range. -/
def charAt (s : List Char) (i : Nat) : Option Char :=
  (s.drop i).head?

/-- First position at or after `i` whose character fails `p` (greedy `p*`). -/
def skipFrom (p : Char → Bool) (s : List Char) (i : Nat) : Nat :=
  i + ((s.drop i).takeWhile p).length

/-- One `RegExp.exec` result: match position, match length, captured groups. -/
structure RxMatch where
  index : Nat
  len : Nat
  groups : List (List Char)
deriving DecidableEq, Repr

/-- The cursor after processing a match in the `parse` loop: `exec` leaves
`lastIndex = index + len`, and the zero-width guard (`match.index ==
rx.lastIndex`) bumps it by one exactly when the match is empty. -/
def step (m : RxMatch) : Nat :=
  if m.len = 0 then m.index + 1 else m.index + m.len

/-- Well-formedness of an exec function: a match starts no earlier than the
cursor and lies within the string. -/
def ExecWF (exec : List Char → Nat → Option RxMatch) : Prop :=
  ∀ s i m, exec s i = some m →
    i ≤ m.index ∧ m.index ≤ s.length ∧ m.index + m.len ≤ s.length

/-- The opening comment delimiter. -/
def openTok : List Char := ['<', '!', '-', '-']

/-- The closing comment delimiter. -/
def closeTok : List Char := ['-', '-', '>']

/-- `exec` of `/<!--([\s\S]*?)-->/g` from cursor `i`: the first `<!--` at or
after `i`, closed at the nearest following `-->` (lazy inner match); group 1
is the inner text. -/
def commentsExec (s : List Char) (i : Nat) : Option RxMatch :=
  match findFrom openTok s i with
  | none => none
  | some j =>
    match findFrom closeTok s (j + 4) with
    | none => none
    | some k => some ⟨j, k + 3 - j, [slice s (j + 4) k]⟩

/-- Tail of a pairs-regex match attempt: after the colon, skip whitespace to
`t`, take the greedy `[\w-_.]*` value, and the trailing `\s*`. -/
def attemptValue (s : List Char) (q r t : Nat) : Option (Nat × List Char × List Char) :=
  some (skipFrom jsSpace s (skipFrom isValueChar s t), slice s q r,
    slice s t (skipFrom isValueChar s t))

/-- After the key `[q, r)`: the next character must be a colon. -/
def attemptColon (s : List Char) (q r : Nat) : Option (Nat × List Char × List Char) :=
  if charAt s r = some ':' then attemptValue s q r (skipFrom jsSpace s (r + 1))
  else none

/-- From position `q` (whitespace already skipped): the key `\w+` must be
non-empty. -/
def attemptKey (s : List Char) (q : Nat) : Option (Nat × List Char × List Char) :=
  if skipFrom isWordChar s q = q then none
  else attemptColon s q (skipFrom isWordChar s q)

/-- Attempt of `\s*(\w+):\s*([\w-_.]*)\s*` anchored at position `i`; returns
the end position and the two captured groups on success. -/
def attemptPair (s : List Char) (i : Nat) : Option (Nat × List Char × List Char) :=
  attemptKey s (skipFrom jsSpace s i)

/-- Backtracking search of the pairs regex: try successive start positions,
as `RegExp.exec` does. -/
def pairsSearch (s : List Char) : Nat → Nat → Option RxMatch
  | 0, _ => none
  | fuel + 1, p =>
    match attemptPair s p with
    | some (v, key, val) => some ⟨p, v - p, [key, val]⟩
    | none => if s.length ≤ p then none else pairsSearch s fuel (p + 1)

/-- `exec` of `/\s*(\w+):\s*([\w-_.]*)\s*/g` from cursor `i`. -/
def pairsExec (s : List Char) (i : Nat) : Option RxMatch :=
  pairsSearch s (s.length + 1 - i) i

/-- The `parse` loop of the service, fuelled: repeatedly `exec`, collecting
every match, advancing the cursor by `step` (which includes the zero-width
guard `if (match.index == rx.lastIndex) rx.lastIndex++`). -/
def parseFuel (exec : List Char → Nat → Option RxMatch) (s : List Char) :
    Nat → Nat → List RxMatch
  | 0, _ => []
  | fuel + 1, i =>
    match exec s i with
    | none => []
    | some m => m :: parseFuel exec s fuel (step m)

/-- All matches of `exec` over `s` from cursor `0`; `s.length + 1` units of
fuel suffice for any well-formed exec because the cursor strictly advances. -/
def parseAll (exec : List Char → Nat → Option RxMatch) (s : List Char) : List RxMatch :=
  parseFuel exec s (s.length + 1) 0

/-- JavaScript object property write `out[k] = v`: overwrite the value of an
existing key in place, otherwise append the new key. -/
def objSet : List (String × String) → String → String → List (String × String)
  | [], k, v => [(k, v)]
  | kv :: rest, k, v => if kv.1 = k then (k, v) :: rest else kv :: objSet rest k v

/-- JavaScript property read `o[k]`. -/
def lookupKey (o : List (String × String)) (k : String) : Option String :=
  (o.find? (fun kv => kv.1 == k)).map (fun kv => kv.2)

/-- `parseComments` of the service: scan comment blocks in document order,
scan `key: value` pairs inside each block in order of appearance, and write
each pair into the output object (later writes overwrite earlier ones).
Falsy input (absent or empty source) yields the empty object. -/
def parseComments (source : Option String) : List (String × String) :=
  match source with
  | none => []
  | some src =>
    if src = "" then []
    else
      (parseAll commentsExec src.toList).foldl (fun out cm =>
        (parseAll pairsExec (cm.groups.headD [])).foldl (fun out2 pm =>
          objSet out2 (String.mk (pm.groups.getD 0 [])) (String.mk (pm.groups.getD 1 []))) out) []

/-- The `(key, value)` pairs found inside one comment match, in order. -/
def pairsOfComment (cm : RxMatch) : List (String × String) :=
  (parseAll pairsExec (cm.groups.headD [])).map (fun pm =>
    (String.mk (pm.groups.getD 0 []), String.mk (pm.groups.getD 1 [])))

/-- Every `(key, value)` pair of the source, in scan order: comment blocks in
document order, pairs within a block in order of appearance. -/
def allPairs (src : String) : List (String × String) :=
  ((parseAll commentsExec src.toList).map pairsOfComment).flatten

/-- The literal characters of the key pattern `path`. -/
def pathTok : List Char := ['p', 'a', 't', 'h']

/-- `key.match(/^path\d*$/)`: the whole key is `path` followed by digits. -/
def isPathKey (k : String) : Bool :=
  matchesAt pathTok k.toList && (k.toList.drop 4).all Char.isDigit

/-- JavaScript `Array.prototype.join('/')`; a missing (`undefined`/`null`)
element is rendered as the empty string, never as the text `undefined`. -/
def joinSlash : List String → String
  | [] => ""
  | [v] => v
  | v :: rest => v ++ "/" ++ joinSlash rest

/-- `resolvePath` of the service: keep the route parameters whose key matches
`^path\d*$` in declaration order, take their values, join with `/`. -/
def resolvePath (params : List (String × Option String)) : String :=
  joinSlash ((params.filter (fun kv => isPathKey kv.1)).map (fun kv => kv.2.getD ""))

/-- `path.replace(/\.\w+$/, '')`: strip a trailing dot-plus-word-characters
extension, if present. -/
def stripExt (s : String) : String :=
  match s.toList.reverse.takeWhile isWordChar,
      s.toList.reverse.drop (s.toList.reverse.takeWhile isWordChar).length with
  | [], _ => s
  | _ :: _, '.' :: rest => String.mk rest.reverse
  | _ :: _, _ => s

/-- The route snapshot: the `data.source` content root (absent when the route
declares none) and the ordered route parameter map. -/
structure RouteSnapshot where
  source : Option String
  paramMap : List (String × Option String)
deriving DecidableEq, Repr

/-- The cache slot: the language tag plus the open-ended string fields the
`StaticCache` index signature admits. -/
structure StaticCache where
  lang : String
  fields : List (String × String)
deriving DecidableEq, Repr

/-- Observable side effects of one resolution, in execution order. -/
inductive Event where
  | reset (lang : String)
  | load (root lang file : String)
  | navigate (url : String)
deriving DecidableEq, Repr

/-- Is the event a `FileLoader` load? -/
def isLoad : Event → Bool
  | .load _ _ _ => true
  | _ => false

/-- Is the event a cache reset? -/
def isReset : Event → Bool
  | .reset _ => true
  | _ => false

/-- Is the event a router navigation? -/
def isNavigate : Event → Bool
  | .navigate _ => true
  | _ => false

/-- The fallback navigation target. -/
def notFoundUrl : String := "/not-found"

/-- `route.data.source || 'assets/docs'` (the empty string is falsy). -/
def rootOf (route : RouteSnapshot) : String :=
  match route.source with
  | some s => if s = "" then "assets/docs" else s
  | none => "assets/docs"

/-- The primary document filename: the resolved path with any trailing
extension stripped, plus `.md`. -/
def primaryFile (route : RouteSnapshot) : String :=
  stripExt (resolvePath route.paramMap) ++ ".md"

/-- JavaScript truthiness of `options.toc`: present and non-empty. -/
def truthy (o : Option String) : Bool :=
  match o with
  | none => false
  | some s => s ≠ ""

/-- The `toc` property of the options object. -/
def tocOf (options : List (String × String)) : Option String :=
  lookupKey options "toc"

/-- The object spread `{ body, path, ...options }`. -/
def baseResult (body path : String) (options : List (String × String)) :
    List (String × String) :=
  options.foldl (fun o kv => objSet o kv.1 kv.2) [("body", body), ("path", path)]

/-- The load/parse/toc/fallback pipeline of `resolve`, excluding the cache
layer: returns the result object and the ordered loader/navigation events.
`loadFile` gives the collaborator's response to each requested load. -/
def resolveCore {ε : Type} (loadFile : String → String → String → Except ε String)
    (lang : String) (route : RouteSnapshot) :
    List (String × String) × List Event :=
  match loadFile (rootOf route) lang (primaryFile route) with
  | .error _ =>
    ([("body", "")],
      [Event.load (rootOf route) lang (primaryFile route), Event.navigate notFoundUrl])
  | .ok body =>
    if truthy (tocOf (parseComments (some body))) then
      match loadFile (rootOf route) lang ((tocOf (parseComments (some body))).getD "") with
      | .error _ =>
        ([("body", "")],
          [Event.load (rootOf route) lang (primaryFile route),
           Event.load (rootOf route) lang ((tocOf (parseComments (some body))).getD ""),
           Event.navigate notFoundUrl])
      | .ok toc =>
        (objSet (baseResult body (resolvePath route.paramMap) (parseComments (some body))) "toc" toc,
          [Event.load (rootOf route) lang (primaryFile route),
           Event.load (rootOf route) lang ((tocOf (parseComments (some body))).getD "")])
    else
      (baseResult body (resolvePath route.paramMap) (parseComments (some body)),
        [Event.load (rootOf route) lang (primaryFile route)])

/-- `resolve` of the service: reset the cache slot when the resolved language
differs from the cached one (`lang !== this.cache?.lang`), then run the
pipeline. Returns the result object, the updated cache slot and the event
log. -/
def resolve {ε : Type} (loadFile : String → String → String → Except ε String)
    (lang : String) (route : RouteSnapshot) (cache : Option StaticCache) :
    List (String × String) × Option StaticCache × List Event :=
  if cache.map StaticCache.lang = some lang then
    ((resolveCore loadFile lang route).1, cache, (resolveCore loadFile lang route).2)
  else
    ((resolveCore loadFile lang route).1, some ⟨lang, []⟩,
      Event.reset lang :: (resolveCore loadFile lang route).2)

/-- Does this resolution hit a failure path: primary load fails, or a truthy
`toc` is named and its load fails? -/
def loadFails {ε : Type} (loadFile : String → String → String → Except ε String)
    (lang : String) (route : RouteSnapshot) : Bool :=
  match loadFile (rootOf route) lang (primaryFile route) with
  | .error _ => true
  | .ok body =>
    truthy (tocOf (parseComments (some body))) &&
      (match loadFile (rootOf route) lang ((tocOf (parseComments (some body))).getD "") with
       | .error _ => true
       | .ok _ => false)

/-! ### Lemmas about the string-search primitives -/

theorem matchesAt_length {pat s : List Char} (h : matchesAt pat s = true) :
    pat.length ≤ s.length := by
  induction pat generalizing s with
  | nil => simp
  | cons p ps ih =>
    cases s with
    | nil => simp [matchesAt] at h
    | cons c cs =>
      simp only [matchesAt, Bool.and_eq_true] at h
      simpa using Nat.succ_le_succ (ih h.2)

theorem findPat_le {pat s : List Char} {j : Nat} (h : findPat pat s = some j) :
    j ≤ s.length ∧ matchesAt pat (s.drop j) = true := by
  induction s generalizing j with
  | nil =>
    simp only [findPat] at h
    split at h
    · next hm => cases h; simpa using hm
    · cases h
  | cons c t ih =>
    simp only [findPat] at h
    split at h
    · next hm => cases h; simpa using hm
    · next hm =>
      cases hfp : findPat pat t with
      | none => rw [hfp] at h; cases h
      | some j0 =>
        rw [hfp] at h
        simp only [Option.map_some', Option.some.injEq] at h
        obtain ⟨hj0, hm0⟩ := ih hfp
        subst h
        exact ⟨by simpa using Nat.succ_le_succ hj0, by simpa using hm0⟩

theorem findFrom_spec {pat s : List Char} {i j : Nat} (h : findFrom pat s i = some j) :
    i ≤ j ∧ pat.length ≤ s.length - j := by
  unfold findFrom at h
  cases hfp : findPat pat (s.drop i) with
  | none => rw [hfp] at h; cases h
  | some j0 =>
    rw [hfp] at h
    simp only [Option.map_some', Option.some.injEq] at h
    obtain ⟨hj0, hm0⟩ := findPat_le hfp
    subst h
    refine ⟨Nat.le_add_left i j0, ?_⟩
    have h2 := matchesAt_length hm0
    rw [List.drop_drop] at h2
    rw [List.length_drop] at h2
    omega

theorem commentsExec_wf : ExecWF commentsExec := by
  intro s i m h
  cases hj : findFrom openTok s i with
  | none => simp [commentsExec, hj] at h
  | some j =>
    cases hk : findFrom closeTok s (j + 4) with
    | none => simp [commentsExec, hj, hk] at h
    | some k =>
      simp only [commentsExec, hj, hk, Option.some.injEq] at h
      obtain ⟨hij, hjl⟩ := findFrom_spec hj
      obtain ⟨hjk, hkl⟩ := findFrom_spec hk
      have hjl4 : 4 ≤ s.length - j := by simpa [openTok] using hjl
      have hkl3 : 3 ≤ s.length - k := by simpa [closeTok] using hkl
      subst h
      refine ⟨hij, by simp; omega, by simp; omega⟩

theorem skipFrom_ge (p : Char → Bool) (s : List Char) (i : Nat) : i ≤ skipFrom p s i :=
  Nat.le_add_right i _

theorem skipFrom_le (p : Char → Bool) (s : List Char) {i : Nat} (h : i ≤ s.length) :
    skipFrom p s i ≤ s.length := by
  have h1 : ((s.drop i).takeWhile p).length ≤ (s.drop i).length :=
    (List.takeWhile_sublist p).length_le
  rw [List.length_drop] at h1
  unfold skipFrom
  omega

theorem charAt_lt {s : List Char} {i : Nat} {c : Char} (h : charAt s i = some c) :
    i < s.length := by
  unfold charAt at h
  by_contra hlt
  push_neg at hlt
  rw [List.drop_eq_nil_iff.mpr hlt] at h
  simp at h

theorem attemptPair_bounds {s : List Char} {i v : Nat} {k val : List Char}
    (h : attemptPair s i = some (v, k, val)) : i < v ∧ v ≤ s.length := by
  unfold attemptPair attemptKey at h
  split at h
  · cases h
  · next hne =>
    unfold attemptColon at h
    split at h
    · next hc =>
      unfold attemptValue at h
      have hr : skipFrom isWordChar s (skipFrom jsSpace s i) < s.length := charAt_lt hc
      have hiq : i ≤ skipFrom jsSpace s i := skipFrom_ge _ _ _
      have hqr : skipFrom jsSpace s i ≤ skipFrom isWordChar s (skipFrom jsSpace s i) :=
        skipFrom_ge _ _ _
      have hrt : skipFrom isWordChar s (skipFrom jsSpace s i) + 1 ≤
          skipFrom jsSpace s (skipFrom isWordChar s (skipFrom jsSpace s i) + 1) :=
        skipFrom_ge _ _ _
      have htu : skipFrom jsSpace s (skipFrom isWordChar s (skipFrom jsSpace s i) + 1) ≤
          skipFrom isValueChar s
            (skipFrom jsSpace s (skipFrom isWordChar s (skipFrom jsSpace s i) + 1)) :=
        skipFrom_ge _ _ _
      have huv : skipFrom isValueChar s
            (skipFrom jsSpace s (skipFrom isWordChar s (skipFrom jsSpace s i) + 1)) ≤
          skipFrom jsSpace s (skipFrom isValueChar s
            (skipFrom jsSpace s (skipFrom isWordChar s (skipFrom jsSpace s i) + 1))) :=
        skipFrom_ge _ _ _
      have ht_le : skipFrom jsSpace s (skipFrom isWordChar s (skipFrom jsSpace s i) + 1) ≤
          s.length := skipFrom_le _ _ (by omega)
      have hu_le : skipFrom isValueChar s
            (skipFrom jsSpace s (skipFrom isWordChar s (skipFrom jsSpace s i) + 1)) ≤
          s.length := skipFrom_le _ _ ht_le
      have hv_le : skipFrom jsSpace s (skipFrom isValueChar s
            (skipFrom jsSpace s (skipFrom isWordChar s (skipFrom jsSpace s i) + 1))) ≤
          s.length := skipFrom_le _ _ hu_le
      cases h
      exact ⟨by omega, hv_le⟩
    · cases h

theorem pairsSearch_bounds {s : List Char} : ∀ {fuel p : Nat} {m : RxMatch},
    pairsSearch s fuel p = some m →
    p ≤ m.index ∧ m.index ≤ s.length ∧ m.index + m.len ≤ s.length := by
  intro fuel
  induction fuel with
  | zero => intro p m h; simp [pairsSearch] at h
  | succ n ih =>
    intro p m h
    cases hap : attemptPair s p with
    | some res =>
      obtain ⟨v, key, val⟩ := res
      simp only [pairsSearch, hap, Option.some.injEq] at h
      obtain ⟨hpv, hvl⟩ := attemptPair_bounds hap
      subst h
      exact ⟨Nat.le_refl _, by simp; omega, by simp; omega⟩
    | none =>
      simp only [pairsSearch, hap] at h
      split at h
      · cases h
      · obtain ⟨h1, h2, h3⟩ := ih h
        exact ⟨by omega, h2, h3⟩

theorem pairsExec_wf : ExecWF pairsExec := by
  intro s i m h
  exact pairsSearch_bounds h

/-! ### The scanning loop: cursor advancement and termination -/

theorem step_advance {exec : List Char → Nat → Option RxMatch} (hwf : ExecWF exec)
    {s : List Char} {i : Nat} {m : RxMatch} (h : exec s i = some m) :
    i < step m ∧ step m ≤ s.length + 1 := by
  obtain ⟨h1, h2, h3⟩ := hwf s i m h
  unfold step
  split <;> omega

theorem parseFuel_stable {exec : List Char → Nat → Option RxMatch} (hwf : ExecWF exec)
    (s : List Char) :
    ∀ f1 f2 i, s.length + 1 ≤ f1 + i → s.length + 1 ≤ f2 + i →
      parseFuel exec s f1 i = parseFuel exec s f2 i := by
  intro f1
  induction f1 with
  | zero =>
    intro f2 i h1 _
    have hnone : exec s i = none := by
      cases hx : exec s i with
      | none => rfl
      | some m => obtain ⟨ha, hb, _⟩ := hwf s i m hx; omega
    cases f2 with
    | zero => rfl
    | succ n2 => simp [parseFuel, hnone]
  | succ n ih =>
    intro f2 i h1 h2
    cases f2 with
    | zero =>
      have hnone : exec s i = none := by
        cases hx : exec s i with
        | none => rfl
        | some m => obtain ⟨ha, hb, _⟩ := hwf s i m hx; omega
      simp [parseFuel, hnone]
    | succ n2 =>
      cases hx : exec s i with
      | none => simp only [parseFuel, hx]
      | some m =>
        obtain ⟨hadv, hbnd⟩ := step_advance hwf hx
        simp only [parseFuel, hx]
        rw [ih n2 (step m) (by omega) (by omega)]

/-- C7: for every input string, the regex-scanning loop of the metadata
extractor terminates: for any well-formed exec function (in particular the
two regexes used), the scanning cursor advances by at least one position per
iteration — the zero-width guard in `step` prevents a stuck cursor — and
`s.length + 1` iterations always suffice: any larger fuel budget computes the
same match list. -/
theorem c7_scan_advances {exec : List Char → Nat → Option RxMatch}
    (hwf : ExecWF exec) (s : List Char) :
    (∀ i m, exec s i = some m → i < step m) ∧
    (∀ fuel, s.length + 1 ≤ fuel → parseFuel exec s fuel 0 = parseAll exec s) := by
  constructor
  · intro i m h
    exact (step_advance hwf h).1
  · intro fuel hf
    unfold parseAll
    exact parseFuel_stable hwf s fuel (s.length + 1) 0 (by omega) (by omega)

theorem c7_scan_advances_witness :
    0 < step ⟨0, 8, [['x']]⟩ ∧
    parseFuel commentsExec "<!--x-->".toList 100 0 = parseAll commentsExec "<!--x-->".toList := by
  constructor
  · exact (c7_scan_advances commentsExec_wf "<!--x-->".toList).1 0 ⟨0, 8, [['x']]⟩ (by decide)
  · exact (c7_scan_advances commentsExec_wf "<!--x-->".toList).2 100 (by decide)

/-! ### Lemmas about object writes and reads -/

theorem lookupKey_nil (k : String) : lookupKey [] k = none := rfl

theorem lookupKey_cons (kv : String × String) (rest : List (String × String)) (k : String) :
    lookupKey (kv :: rest) k = if kv.1 = k then some kv.2 else lookupKey rest k := by
  by_cases h : kv.1 = k
  · rw [if_pos h]
    unfold lookupKey
    rw [List.find?_cons_of_pos _ (by simpa using h)]
    rfl
  · rw [if_neg h]
    unfold lookupKey
    rw [List.find?_cons_of_neg _ (by simpa using h)]

theorem find?_singleton (kv : String × String) (k : String) :
    List.find? (fun x => x.1 == k) [kv] = if kv.1 = k then some kv else none := by
  by_cases h : kv.1 = k
  · rw [if_pos h]
    exact List.find?_cons_of_pos _ (by simpa using h)
  · rw [if_neg h]
    rw [List.find?_cons_of_neg _ (by simpa using h)]
    rfl

theorem lookupKey_objSet (o : List (String × String)) (k v k2 : String) :
    lookupKey (objSet o k v) k2 = if k2 = k then some v else lookupKey o k2 := by
  induction o with
  | nil =>
    show lookupKey [(k, v)] k2 = _
    rw [lookupKey_cons, lookupKey_nil]
    by_cases h : k2 = k
    · rw [if_pos (show (k, v).1 = k2 by rw [h]), if_pos h]
    · rw [if_neg (show ¬(k, v).1 = k2 from fun he => h he.symm), if_neg h]
  | cons kv rest ih =>
    by_cases h1 : kv.1 = k
    · simp only [objSet, if_pos h1]
      rw [lookupKey_cons, lookupKey_cons]
      split_ifs <;> simp_all
    · simp only [objSet, if_neg h1]
      rw [lookupKey_cons, lookupKey_cons, ih]
      split_ifs <;> simp_all

theorem foldl_objSet_lookup :
    ∀ (l init : List (String × String)) (k : String),
      lookupKey (l.foldl (fun o kv => objSet o kv.1 kv.2) init) k =
        ((l.reverse.find? (fun kv => kv.1 == k)).map (fun kv => kv.2)).or (lookupKey init k) := by
  intro l
  induction l with
  | nil => intro init k; simp
  | cons kv rest ih =>
    intro init k
    simp only [List.foldl_cons, List.reverse_cons]
    rw [ih, List.find?_append]
    cases hf : rest.reverse.find? (fun kv => kv.1 == k) with
    | some kv2 => rfl
    | none =>
      rw [lookupKey_objSet, find?_singleton]
      by_cases h : kv.1 = k
      · rw [if_pos h, if_pos h.symm]
        rfl
      · rw [if_neg h, if_neg (fun he : k = kv.1 => h he.symm)]
        rfl

theorem mem_keys_objSet {o : List (String × String)} {k v x : String} :
    x ∈ (objSet o k v).map Prod.fst ↔ x ∈ o.map Prod.fst ∨ x = k := by
  induction o with
  | nil => simp [objSet]
  | cons kv rest ih =>
    by_cases h : kv.1 = k
    · simp [objSet, h]
      tauto
    · simp [objSet, h, ih]
      tauto

theorem nodup_keys_objSet {o : List (String × String)} (k v : String)
    (h : (o.map Prod.fst).Nodup) : ((objSet o k v).map Prod.fst).Nodup := by
  induction o with
  | nil => simp [objSet]
  | cons kv rest ih =>
    simp only [List.map_cons, List.nodup_cons] at h
    by_cases hk : kv.1 = k
    · simp only [objSet, if_pos hk, List.map_cons, List.nodup_cons]
      exact ⟨by simpa [hk] using h.1, h.2⟩
    · simp only [objSet, if_neg hk, List.map_cons, List.nodup_cons]
      refine ⟨?_, ih h.2⟩
      rw [mem_keys_objSet]
      push_neg
      exact ⟨h.1, hk⟩

theorem nodup_keys_foldl_objSet :
    ∀ (l init : List (String × String)), (init.map Prod.fst).Nodup →
      ((l.foldl (fun o kv => objSet o kv.1 kv.2) init).map Prod.fst).Nodup := by
  intro l
  induction l with
  | nil => intro init h; simpa using h
  | cons kv rest ih =>
    intro init h
    simp only [List.foldl_cons]
    exact ih _ (nodup_keys_objSet _ _ h)

theorem parseComments_eq (src : String) :
    parseComments (some src) = (allPairs src).foldl (fun o kv => objSet o kv.1 kv.2) [] := by
  by_cases h : src = ""
  · subst h
    rfl
  · simp only [parseComments, if_neg h, allPairs]
    rw [List.foldl_flatten, List.foldl_map]
    simp only [pairsOfComment, List.foldl_map]

theorem parseComments_nodup (source : Option String) :
    ((parseComments source).map Prod.fst).Nodup := by
  cases source with
  | none => simp [parseComments]
  | some src =>
    rw [parseComments_eq]
    exact nodup_keys_foldl_objSet _ _ (by simp)

theorem find?_reverse_of_nodup {l : List (String × String)} {k : String}
    (h : (l.map Prod.fst).Nodup) :
    l.reverse.find? (fun kv => kv.1 == k) = l.find? (fun kv => kv.1 == k) := by
  induction l with
  | nil => rfl
  | cons kv rest ih =>
    simp only [List.map_cons, List.nodup_cons] at h
    rw [List.reverse_cons, List.find?_append, ih h.2, find?_singleton]
    by_cases hk : kv.1 = k
    · have hrest : rest.find? (fun kv => kv.1 == k) = none := by
        rw [List.find?_eq_none]
        intro x hx
        simp only [beq_iff_eq]
        intro hxk
        exact h.1 (List.mem_map.mpr ⟨x, hx, by rw [hxk, hk]⟩)
      rw [hrest, if_pos hk, List.find?_cons_of_pos _ (by simpa using hk)]
      rfl
    · rw [if_neg hk, List.find?_cons_of_neg _ (by simpa using hk)]
      cases rest.find? (fun kv => kv.1 == k) <;> rfl

theorem lookupKey_of_nodup_foldl (init l : List (String × String)) (k : String)
    (hnd : (l.map Prod.fst).Nodup) :
    lookupKey (l.foldl (fun o kv => objSet o kv.1 kv.2) init) k =
      ((l.find? (fun kv => kv.1 == k)).map (fun kv => kv.2)).or (lookupKey init k) := by
  rw [foldl_objSet_lookup, find?_reverse_of_nodup hnd]

theorem lookup_baseResult (body path : String) (options : List (String × String))
    (hnd : (options.map Prod.fst).Nodup) :
    lookupKey (baseResult body path options) "toc" = tocOf options := by
  unfold baseResult tocOf
  rw [lookupKey_of_nodup_foldl _ _ _ hnd]
  cases hf : options.find? (fun kv => kv.1 == "toc") with
  | some kv =>
    unfold lookupKey
    rw [hf]
    rfl
  | none =>
    unfold lookupKey
    rw [hf]
    rw [List.find?_cons_of_neg _ (by simp), List.find?_cons_of_neg _ (by simp)]
    rfl

/-! ### Lemmas about the resolution pipeline -/

theorem resolveCore_no_reset {ε : Type} (loadFile : String → String → String → Except ε String)
    (lang : String) (route : RouteSnapshot) :
    (resolveCore loadFile lang route).2.filter isReset = [] := by
  unfold resolveCore
  split
  · rfl
  · split
    · split
      · rfl
      · rfl
    · rfl

theorem resolveCore_primary_mem {ε : Type} (loadFile : String → String → String → Except ε String)
    (lang : String) (route : RouteSnapshot) :
    Event.load (rootOf route) lang (primaryFile route) ∈ (resolveCore loadFile lang route).2 := by
  unfold resolveCore
  split
  · exact List.mem_cons_self _ _
  · split
    · split
      · exact List.mem_cons_self _ _
      · exact List.mem_cons_self _ _
    · exact List.mem_cons_self _ _

theorem resolveCore_fail {ε : Type} (loadFile : String → String → String → Except ε String)
    (lang : String) (route : RouteSnapshot) (h : loadFails loadFile lang route = true) :
    (resolveCore loadFile lang route).1 = [("body", "")] ∧
    ((resolveCore loadFile lang route).2.filter isNavigate).length = 1 := by
  unfold resolveCore
  split
  · exact ⟨rfl, rfl⟩
  · next body heq =>
    unfold loadFails at h
    simp only [heq] at h
    split
    · split
      · exact ⟨rfl, rfl⟩
      · next toc heq2 =>
        simp only [heq2] at h
        simp at h
    · next ht =>
      rw [Bool.and_eq_true] at h
      exact absurd h.1 ht

theorem resolveCore_ok {ε : Type} (loadFile : String → String → String → Except ε String)
    (lang : String) (route : RouteSnapshot) (h : loadFails loadFile lang route = false) :
    ((resolveCore loadFile lang route).2.filter isNavigate).length = 0 := by
  unfold resolveCore
  split
  · next e heq =>
    unfold loadFails at h
    simp only [heq] at h
    exact Bool.noConfusion h
  · next body heq =>
    unfold loadFails at h
    simp only [heq] at h
    split
    · next ht =>
      split
      · next e2 heq2 =>
        simp only [heq2] at h
        rw [ht] at h
        simp at h
      · rfl
    · rfl

theorem resolve_eq_same {ε : Type} (loadFile : String → String → String → Except ε String)
    (lang : String) (route : RouteSnapshot) (cache : Option StaticCache)
    (h : cache.map StaticCache.lang = some lang) :
    resolve loadFile lang route cache =
      ((resolveCore loadFile lang route).1, cache, (resolveCore loadFile lang route).2) := by
  unfold resolve
  rw [if_pos h]

theorem resolve_eq_reset {ε : Type} (loadFile : String → String → String → Except ε String)
    (lang : String) (route : RouteSnapshot) (cache : Option StaticCache)
    (h : ¬cache.map StaticCache.lang = some lang) :
    resolve loadFile lang route cache =
      ((resolveCore loadFile lang route).1, some ⟨lang, []⟩,
        Event.reset lang :: (resolveCore loadFile lang route).2) := by
  unfold resolve
  rw [if_neg h]

/-- C1: for every request, `resolve` never surfaces the loader's failure to
its caller: whenever a load fails (primary, or the secondary toc load), the
result is the degraded object `{ body: "" }` with no other fields and the
fallback navigation fires exactly once; when no load fails, no fallback
navigation fires at all. -/
theorem c1_degraded_on_failure (ε : Type) (loadFile : String → String → String → Except ε String)
    (lang : String) (route : RouteSnapshot) (cache : Option StaticCache) :
    (loadFails loadFile lang route = true →
      (resolve loadFile lang route cache).1 = [("body", "")] ∧
      ((resolve loadFile lang route cache).2.2.filter isNavigate).length = 1) ∧
    (loadFails loadFile lang route = false →
      ((resolve loadFile lang route cache).2.2.filter isNavigate).length = 0) := by
  by_cases hc : cache.map StaticCache.lang = some lang
  · rw [resolve_eq_same loadFile lang route cache hc]
    exact ⟨fun h => resolveCore_fail loadFile lang route h,
      fun h => resolveCore_ok loadFile lang route h⟩
  · rw [resolve_eq_reset loadFile lang route cache hc]
    constructor
    · intro h
      obtain ⟨h1, h2⟩ := resolveCore_fail loadFile lang route h
      exact ⟨h1, by simpa [List.filter_cons, isNavigate] using h2⟩
    · intro h
      simpa [List.filter_cons, isNavigate] using resolveCore_ok loadFile lang route h

theorem c1_degraded_on_failure_witness :
    (resolve (fun _ _ _ => (Except.error () : Except Unit String)) "en" ⟨none, []⟩ none).1 =
      [("body", "")] ∧
    ((resolve (fun _ _ _ => (Except.error () : Except Unit String)) "en"
      ⟨none, []⟩ none).2.2.filter isNavigate).length = 1 :=
  (c1_degraded_on_failure Unit (fun _ _ _ => Except.error ()) "en" ⟨none, []⟩ none).1 rfl

/-- C5: the cache slot is discarded and replaced by a fresh entry tagged with
the resolved language exactly when that language differs from the cached one
(including the first request, when no entry exists); the reset is logged
before any load event; with an unchanged language the existing entry is
reused with no reset, and a second resolution with the same resolved
language never resets. -/
theorem c5_cache_policy (ε : Type) (loadFile : String → String → String → Except ε String)
    (lang : String) (route : RouteSnapshot) (cache : Option StaticCache) :
    (cache.map StaticCache.lang = some lang →
      (resolve loadFile lang route cache).2.1 = cache ∧
      (resolve loadFile lang route cache).2.2.filter isReset = []) ∧
    (¬cache.map StaticCache.lang = some lang →
      (resolve loadFile lang route cache).2.1 = some ⟨lang, []⟩ ∧
      (resolve loadFile lang route cache).2.2.filter isReset = [Event.reset lang] ∧
      (resolve loadFile lang route cache).2.2.head? = some (Event.reset lang)) ∧
    (∀ (ε2 : Type) (loadFile2 : String → String → String → Except ε2 String)
        (route2 : RouteSnapshot),
      (resolve loadFile2 lang route2
        ((resolve loadFile lang route cache).2.1)).2.2.filter isReset = []) := by
  refine ⟨?_, ?_, ?_⟩
  · intro h
    rw [resolve_eq_same loadFile lang route cache h]
    exact ⟨rfl, resolveCore_no_reset loadFile lang route⟩
  · intro h
    rw [resolve_eq_reset loadFile lang route cache h]
    refine ⟨rfl, ?_, rfl⟩
    simp [List.filter_cons, isReset, resolveCore_no_reset loadFile lang route]
  · intro ε2 loadFile2 route2
    by_cases h : cache.map StaticCache.lang = some lang
    · rw [resolve_eq_same loadFile lang route cache h]
      rw [resolve_eq_same loadFile2 lang route2 _ (by simpa using h)]
      exact resolveCore_no_reset loadFile2 lang route2
    · rw [resolve_eq_reset loadFile lang route cache h]
      rw [resolve_eq_same loadFile2 lang route2 _ (by simp)]
      exact resolveCore_no_reset loadFile2 lang route2

theorem c5_cache_policy_witness :
    (resolve (fun _ _ _ => (Except.ok "x" : Except Unit String)) "en" ⟨none, []⟩
      (some ⟨"en", []⟩)).2.1 = some ⟨"en", []⟩ ∧
    (resolve (fun _ _ _ => (Except.ok "x" : Except Unit String)) "en" ⟨none, []⟩
      (some ⟨"en", []⟩)).2.2.filter isReset = [] ∧
    (resolve (fun _ _ _ => (Except.ok "x" : Except Unit String)) "en" ⟨none, []⟩
      none).2.1 = some ⟨"en", []⟩ ∧
    (resolve (fun _ _ _ => (Except.ok "x" : Except Unit String)) "en" ⟨none, []⟩
      none).2.2.head? = some (Event.reset "en") := by
  refine ⟨?_, ?_, ?_, ?_⟩
  · exact ((c5_cache_policy Unit (fun _ _ _ => Except.ok "x") "en" ⟨none, []⟩
      (some ⟨"en", []⟩)).1 rfl).1
  · exact ((c5_cache_policy Unit (fun _ _ _ => Except.ok "x") "en" ⟨none, []⟩
      (some ⟨"en", []⟩)).1 rfl).2
  · exact ((c5_cache_policy Unit (fun _ _ _ => Except.ok "x") "en" ⟨none, []⟩
      none).2.1 (by simp)).1
  · exact ((c5_cache_policy Unit (fun _ _ _ => Except.ok "x") "en" ⟨none, []⟩
      none).2.1 (by simp)).2.2

/-- C10: the returned content result is independent of the prior cache
contents: with the same route, resolved language and loader responses, any
two prior cache states produce equal results and identical load-event
sequences; the primary load is always issued (the cache never short-circuits
a fetch), and the updated cache slot is either the untouched previous entry
or the fresh entry holding only the language tag. -/
theorem c10_cache_independence (ε : Type) (loadFile : String → String → String → Except ε String)
    (lang : String) (route : RouteSnapshot) (c1 c2 : Option StaticCache) :
    (resolve loadFile lang route c1).1 = (resolve loadFile lang route c2).1 ∧
    (resolve loadFile lang route c1).2.2.filter isLoad =
      (resolve loadFile lang route c2).2.2.filter isLoad ∧
    Event.load (rootOf route) lang (primaryFile route) ∈ (resolve loadFile lang route c1).2.2 ∧
    ((resolve loadFile lang route c1).2.1 = c1 ∨
      (resolve loadFile lang route c1).2.1 = some ⟨lang, []⟩) := by
  have hres : ∀ c : Option StaticCache,
      (resolve loadFile lang route c).1 = (resolveCore loadFile lang route).1 := by
    intro c
    unfold resolve
    split <;> rfl
  have hflt : ∀ c : Option StaticCache,
      (resolve loadFile lang route c).2.2.filter isLoad =
        (resolveCore loadFile lang route).2.filter isLoad := by
    intro c
    unfold resolve
    split
    · rfl
    · simp [List.filter_cons, isLoad]
  refine ⟨by rw [hres, hres], by rw [hflt, hflt], ?_, ?_⟩
  · have hmem := resolveCore_primary_mem loadFile lang route
    unfold resolve
    split
    · exact hmem
    · exact List.mem_cons_of_mem _ hmem
  · unfold resolve
    split
    · left; rfl
    · right; rfl

theorem truthy_some_iff (m : String) : truthy (some m) = true ↔ m ≠ "" := by
  unfold truthy
  exact decide_eq_true_iff

theorem resolve_result_eq {ε : Type} (loadFile : String → String → String → Except ε String)
    (lang : String) (route : RouteSnapshot) (cache : Option StaticCache) :
    (resolve loadFile lang route cache).1 = (resolveCore loadFile lang route).1 := by
  unfold resolve
  split <;> rfl

theorem resolve_loads_eq {ε : Type} (loadFile : String → String → String → Except ε String)
    (lang : String) (route : RouteSnapshot) (cache : Option StaticCache) :
    (resolve loadFile lang route cache).2.2.filter isLoad =
      (resolveCore loadFile lang route).2.filter isLoad := by
  unfold resolve
  split
  · rfl
  · simp [List.filter_cons, isLoad]

theorem resolveCore_noToc {ε : Type} (loadFile : String → String → String → Except ε String)
    (lang : String) (route : RouteSnapshot) (body : String)
    (hload : loadFile (rootOf route) lang (primaryFile route) = Except.ok body)
    (ht : truthy (tocOf (parseComments (some body))) = false) :
    resolveCore loadFile lang route =
      (baseResult body (resolvePath route.paramMap) (parseComments (some body)),
        [Event.load (rootOf route) lang (primaryFile route)]) := by
  unfold resolveCore
  simp only [hload]
  rw [if_neg (by simp [ht])]

theorem resolveCore_withToc_ok {ε : Type} (loadFile : String → String → String → Except ε String)
    (lang : String) (route : RouteSnapshot) (body m toc : String)
    (hload : loadFile (rootOf route) lang (primaryFile route) = Except.ok body)
    (hm : tocOf (parseComments (some body)) = some m) (hne : m ≠ "")
    (hsec : loadFile (rootOf route) lang m = Except.ok toc) :
    resolveCore loadFile lang route =
      (objSet (baseResult body (resolvePath route.paramMap) (parseComments (some body)))
        "toc" toc,
        [Event.load (rootOf route) lang (primaryFile route),
         Event.load (rootOf route) lang m]) := by
  unfold resolveCore
  simp only [hload]
  rw [if_pos (by rw [hm]; exact (truthy_some_iff m).mpr hne)]
  simp only [hm, Option.getD_some, hsec]

theorem resolveCore_withToc_fail {ε : Type} (loadFile : String → String → String → Except ε String)
    (lang : String) (route : RouteSnapshot) (body m : String) (e : ε)
    (hload : loadFile (rootOf route) lang (primaryFile route) = Except.ok body)
    (hm : tocOf (parseComments (some body)) = some m) (hne : m ≠ "")
    (hsec : loadFile (rootOf route) lang m = Except.error e) :
    resolveCore loadFile lang route =
      ([("body", "")],
        [Event.load (rootOf route) lang (primaryFile route),
         Event.load (rootOf route) lang m,
         Event.navigate notFoundUrl]) := by
  unfold resolveCore
  simp only [hload]
  rw [if_pos (by rw [hm]; exact (truthy_some_iff m).mpr hne)]
  simp only [hm, Option.getD_some, hsec]

/-- C2 counterexample: a primary document whose metadata maps `toc` to the
empty string produces a result that carries a `toc` field (the empty string,
spread in from the metadata) although only one load — the primary — was ever
issued, so no secondary load succeeded. -/
theorem c2_toc_invariant_cex :
    lookupKey (resolve (fun _ _ _ => (Except.ok "<!-- toc: -->" : Except Unit String)) "en"
      ⟨none, []⟩ none).1 "toc" = some "" ∧
    ((resolve (fun _ _ _ => (Except.ok "<!-- toc: -->" : Except Unit String)) "en"
      ⟨none, []⟩ none).2.2.filter isLoad).length = 1 := by
  exact ⟨by decide, by decide⟩

/-- C2 (amended): the returned result carries a `toc` field only if the
extracted metadata contained a `toc` key; the field holds the secondary
document's body only when the metadata's `toc` value was non-empty and that
load succeeded, while an empty-string `toc` metadata value is carried
through the object spread as an empty `toc` field with no second load; with
no `toc` key at all, no second load is issued and the result has no `toc`
field. -/
theorem c2_toc_invariant (ε : Type) (loadFile : String → String → String → Except ε String)
    (lang : String) (route : RouteSnapshot) (cache : Option StaticCache) (body : String)
    (hload : loadFile (rootOf route) lang (primaryFile route) = Except.ok body) :
    (tocOf (parseComments (some body)) = none →
      ((resolve loadFile lang route cache).2.2.filter isLoad).length = 1 ∧
      lookupKey (resolve loadFile lang route cache).1 "toc" = none) ∧
    (∀ t, lookupKey (resolve loadFile lang route cache).1 "toc" = some t →
      (tocOf (parseComments (some body)) = some "" ∧ t = "") ∨
      (∃ m, tocOf (parseComments (some body)) = some m ∧ m ≠ "" ∧
        loadFile (rootOf route) lang m = Except.ok t)) := by
  simp only [resolve_result_eq, resolve_loads_eq]
  constructor
  · intro htoc
    have ht : truthy (tocOf (parseComments (some body))) = false := by rw [htoc]; rfl
    rw [resolveCore_noToc loadFile lang route body hload ht]
    refine ⟨rfl, ?_⟩
    have h2 := lookup_baseResult body (resolvePath route.paramMap) (parseComments (some body))
      (parseComments_nodup (some body))
    exact h2.trans htoc
  · intro t ht'
    cases htoc : tocOf (parseComments (some body)) with
    | none =>
      have ht : truthy (tocOf (parseComments (some body))) = false := by rw [htoc]; rfl
      rw [resolveCore_noToc loadFile lang route body hload ht] at ht'
      have h2 : lookupKey (baseResult body (resolvePath route.paramMap)
          (parseComments (some body))) "toc" = some t := ht'
      rw [lookup_baseResult body (resolvePath route.paramMap) (parseComments (some body))
        (parseComments_nodup (some body)), htoc] at h2
      exact Option.noConfusion h2
    | some m =>
      by_cases hmem : m = ""
      · subst hmem
        have ht : truthy (tocOf (parseComments (some body))) = false := by rw [htoc]; rfl
        rw [resolveCore_noToc loadFile lang route body hload ht] at ht'
        have h2 : lookupKey (baseResult body (resolvePath route.paramMap)
            (parseComments (some body))) "toc" = some t := ht'
        rw [lookup_baseResult body (resolvePath route.paramMap) (parseComments (some body))
          (parseComments_nodup (some body)), htoc] at h2
        left
        refine ⟨rfl, ?_⟩
        injection h2 with h3
        exact h3.symm
      · cases hsec : loadFile (rootOf route) lang m with
        | error e =>
          rw [resolveCore_withToc_fail loadFile lang route body m e hload htoc hmem hsec] at ht'
          have h2 : lookupKey [("body", "")] "toc" = some t := ht'
          rw [lookupKey_cons, if_neg (by decide), lookupKey_nil] at h2
          exact Option.noConfusion h2
        | ok toc =>
          rw [resolveCore_withToc_ok loadFile lang route body m toc hload htoc hmem hsec] at ht'
          have h2 : lookupKey (objSet (baseResult body (resolvePath route.paramMap)
              (parseComments (some body))) "toc" toc) "toc" = some t := ht'
          rw [lookupKey_objSet, if_pos rfl] at h2
          injection h2 with h3
          right
          refine ⟨m, rfl, hmem, ?_⟩
          rw [← h3]
          exact hsec

theorem c2_toc_invariant_witness :
    ((resolve (fun _ _ _ => (Except.ok "plain body" : Except Unit String)) "en"
      ⟨none, [("path", some "doc")]⟩ none).2.2.filter isLoad).length = 1 ∧
    lookupKey (resolve (fun _ _ _ => (Except.ok "plain body" : Except Unit String)) "en"
      ⟨none, [("path", some "doc")]⟩ none).1 "toc" = none :=
  (c2_toc_invariant Unit (fun _ _ _ => Except.ok "plain body") "en"
    ⟨none, [("path", some "doc")]⟩ none "plain body" rfl).1 (by decide)

/-- C9: when the extracted metadata maps `toc` to the empty string (the
value pattern admits empty values), the truthiness test fails so no second
load is issued, yet the success result still carries a `toc` field equal to
the empty string because every metadata field is spread into the result. -/
theorem c9_empty_toc_spread (ε : Type) (loadFile : String → String → String → Except ε String)
    (lang : String) (route : RouteSnapshot) (cache : Option StaticCache) (body : String)
    (hload : loadFile (rootOf route) lang (primaryFile route) = Except.ok body)
    (htoc : tocOf (parseComments (some body)) = some "") :
    ((resolve loadFile lang route cache).2.2.filter isLoad).length = 1 ∧
    lookupKey (resolve loadFile lang route cache).1 "toc" = some "" := by
  simp only [resolve_result_eq, resolve_loads_eq]
  have ht : truthy (tocOf (parseComments (some body))) = false := by rw [htoc]; rfl
  rw [resolveCore_noToc loadFile lang route body hload ht]
  refine ⟨rfl, ?_⟩
  have h2 := lookup_baseResult body (resolvePath route.paramMap) (parseComments (some body))
    (parseComments_nodup (some body))
  exact h2.trans htoc

theorem c9_empty_toc_spread_witness :
    ((resolve (fun _ _ _ => (Except.ok "intro <!-- toc: -->" : Except Unit String))
      "it" ⟨none, []⟩ none).2.2.filter isLoad).length = 1 ∧
    lookupKey (resolve (fun _ _ _ =>
      (Except.ok "intro <!-- toc: -->" : Except Unit String))
      "it" ⟨none, []⟩ none).1 "toc" = some "" :=
  c9_empty_toc_spread Unit (fun _ _ _ => Except.ok "intro <!-- toc: -->")
    "it" ⟨none, []⟩ none "intro <!-- toc: -->" rfl (by decide)

/-! ### Path assembly and metadata extraction claims -/

/-- C3 counterexample: a segment set in which the matched key `path` has no
value does not make path assembly fail with an `InvalidRequest` error — the
assembly totally succeeds and returns `"/b"`, the missing value contributing
an empty segment. -/
theorem c3_missing_value_cex :
    resolvePath [("path", (none : Option String)), ("path1", some "b")] = "/b" := by
  decide

/-- C3 (amended): when a matched key has no value, path assembly does not
fail: the missing value is rendered exactly as the empty string by the join
(as `Array.prototype.join` renders `undefined`), so assembly behaves as if
every missing value were the empty string and the literal text `undefined`
is never injected. -/
theorem c3_missing_value (params : List (String × Option String)) :
    resolvePath params =
      resolvePath (params.map (fun kv => (kv.1, some (kv.2.getD "")))) := by
  unfold resolvePath
  congr 1
  induction params with
  | nil => rfl
  | cons kv rest ih =>
    simp only [List.map_cons, List.filter_cons]
    by_cases h : isPathKey kv.1
    · simp only [h, if_pos]
      simp [ih]
    · simp only [h]
      simp [ih]

theorem matchesAt_take {pat s : List Char} (h : matchesAt pat s = true) :
    s.take pat.length = pat := by
  induction pat generalizing s with
  | nil => simp
  | cons p ps ih =>
    cases s with
    | nil => simp [matchesAt] at h
    | cons c cs =>
      simp only [matchesAt, Bool.and_eq_true, beq_iff_eq] at h
      simp [List.take_succ_cons, ih h.2, h.1]

theorem matchesAt_of_append (pat t : List Char) : matchesAt pat (pat ++ t) = true := by
  induction pat with
  | nil => rfl
  | cons p ps ih => simp [matchesAt, ih]

/-- C4: path assembly keeps exactly the pairs whose key matches `^path\d*$`
(`path` followed by zero or more decimal digits), preserves their relative
order, and joins their values with single `/` separators; with no matching
key it returns the empty string. The segment sets are quantified with
arbitrary non-matching noise around the three `path*` pairs. -/
theorem c4_path_assembly :
    (∀ params : List (String × Option String),
      (∀ kv ∈ params, isPathKey kv.1 = false) → resolvePath params = "") ∧
    (∀ xs ys zs : List (String × Option String),
      (∀ kv ∈ xs ++ ys ++ zs, isPathKey kv.1 = false) →
      resolvePath (xs ++ [("path", some "a")] ++ ys ++ [("path1", some "b")] ++ zs ++
        [("path2", some "c")]) = "a/b/c") ∧
    (∀ k : String, isPathKey k = true ↔
      ∃ ds : List Char, k.toList = pathTok ++ ds ∧ ∀ c ∈ ds, c.isDigit = true) := by
  refine ⟨?_, ?_, ?_⟩
  · intro params h
    unfold resolvePath
    rw [List.filter_eq_nil_iff.mpr (fun kv hkv => by simp [h kv hkv])]
    rfl
  · intro xs ys zs h
    have hxs : xs.filter (fun kv => isPathKey kv.1) = [] :=
      List.filter_eq_nil_iff.mpr (fun kv hkv => by simp [h kv (by simp [hkv])])
    have hys : ys.filter (fun kv => isPathKey kv.1) = [] :=
      List.filter_eq_nil_iff.mpr (fun kv hkv => by simp [h kv (by simp [hkv])])
    have hzs : zs.filter (fun kv => isPathKey kv.1) = [] :=
      List.filter_eq_nil_iff.mpr (fun kv hkv => by simp [h kv (by simp [hkv])])
    unfold resolvePath
    simp only [List.filter_append, hxs, hys, hzs, List.nil_append, List.append_nil]
    decide
  · intro k
    constructor
    · intro h
      rw [isPathKey, Bool.and_eq_true] at h
      refine ⟨k.toList.drop 4, ?_, ?_⟩
      · have ht := matchesAt_take h.1
        rw [show pathTok.length = 4 from rfl] at ht
        conv_lhs => rw [← List.take_append_drop 4 k.toList]
        rw [ht]
      · intro c hc
        have h2 := h.2
        rw [List.all_eq_true] at h2
        exact h2 c hc
    · intro hex
      obtain ⟨ds, hds, hdig⟩ := hex
      rw [isPathKey, hds, Bool.and_eq_true]
      constructor
      · exact matchesAt_of_append pathTok ds
      · rw [List.drop_left' (show pathTok.length = 4 from rfl), List.all_eq_true]
        exact hdig

theorem c4_path_assembly_witness :
    resolvePath [("q", some "x")] = "" ∧
    resolvePath [("q", some "x"), ("path", some "a"), ("path1", some "b"),
      ("path2", some "c")] = "a/b/c" ∧
    isPathKey "path12" = true := by
  refine ⟨c4_path_assembly.1 _ (by decide), ?_, ?_⟩
  · have h := c4_path_assembly.2.1 [("q", some "x")] [] [] (by decide)
    simpa using h
  · exact (c4_path_assembly.2.2 "path12").mpr ⟨['1', '2'], by decide, by decide⟩

/-- C6: metadata extraction scans comment blocks in document order and pairs
within a block in order of appearance, inserting or overwriting `key ->
value` so that a later occurrence of a key overwrites an earlier one: the
value the result associates to any key is the value of the last pair with
that key in scan order; in particular two `toc` pairs in successive comment
blocks leave only the later binding. -/
theorem c6_last_write_wins :
    (∀ src k : String,
      lookupKey (parseComments (some src)) k =
        ((allPairs src).reverse.find? (fun kv => kv.1 == k)).map (fun kv => kv.2)) ∧
    parseComments (some "<!-- toc: a.md --><!-- toc: b.md -->") = [("toc", "b.md")] := by
  constructor
  · intro src k
    rw [parseComments_eq, foldl_objSet_lookup, lookupKey_nil, Option.or_none]
  · decide

theorem findPat_eq_none {pat s : List Char}
    (h : ∀ i, i ≤ s.length → matchesAt pat (s.drop i) = false) :
    findPat pat s = none := by
  induction s with
  | nil =>
    have h0 := h 0 (by simp)
    rw [List.drop_zero] at h0
    simp [findPat, h0]
  | cons c t ih =>
    have h0 := h 0 (by simp)
    rw [List.drop_zero] at h0
    have ht : ∀ i, i ≤ t.length → matchesAt pat (t.drop i) = false := by
      intro i hi
      have h1 := h (i + 1) (by simp; omega)
      simpa using h1
    simp [findPat, h0, ih ht]

/-- C8: metadata extraction never fails and degrades to the empty map: an
absent (undefined-equivalent) source and the empty source both yield the
empty map; any source without a comment opener yields the empty map; and
malformed, unclosed comment syntax yields no pairs rather than an error. -/
theorem c8_tolerant_extraction :
    parseComments none = [] ∧
    parseComments (some "") = [] ∧
    (∀ src : String,
      (∀ i, i ≤ src.toList.length → matchesAt openTok (src.toList.drop i) = false) →
      parseComments (some src) = []) ∧
    parseComments (some "<!-- toc: a.md") = [] := by
  refine ⟨rfl, rfl, ?_, by decide⟩
  intro src h
  have hnone : commentsExec src.data 0 = none := by
    unfold commentsExec findFrom
    rw [List.drop_zero, findPat_eq_none (show ∀ i, i ≤ src.data.length →
      matchesAt openTok (src.data.drop i) = false from h)]
    rfl
  by_cases hsrc : src = ""
  · simp [parseComments, hsrc]
  · simp only [parseComments, if_neg hsrc, parseAll]
    simp [parseFuel, hnone]

theorem c8_tolerant_extraction_witness :
    parseComments (some "no comment markers here") = [] :=
  c8_tolerant_extraction.2.2.1 "no comment markers here" (by decide)

end StaticResolverModel
